import Mathlib

/-!
Shallow embedding of the privilege-mediation core of APManager: the
command-broker daemon (`run_command` in ap_manager_daemon.py), the broker
client (`_send_request` in ap_manager_client.py), the privilege probe and
elevation strategy (privilege.py), and the cross-process recursive file
mutex (lock.py). Machine integers are modelled as `Int`/`Nat`, fallible
operations as `Option`/`Except`, and the counter file's byte content as
`List Char`.
-/

namespace APManager

/-! ### Broker daemon: `APManagerDaemon.run_command` -/

structure DaemonResponse where
  success : Bool
  returncode : Option Int := none
  stdout : Option String := none
  stderr : Option String := none
  error : Option String := none
deriving DecidableEq

/-- The static allow-list (ap_manager_daemon.py lines 41-50): logical
command key mapped to its executable-plus-argument-prefix template. -/
def allowed_commands : List (String × List String) :=
  [("iw", ["iw", "dev", "wlan0", "interface", "add", "xap0", "type", "__ap"]),
   ("ip_link", ["ip", "link"]),
   ("ip_addr", ["ip", "addr"]),
   ("hostapd", ["hostapd"]),
   ("dnsmasq", ["dnsmasq"]),
   ("mkdir", ["mkdir", "-p"]),
   ("chown", ["chown"]),
   ("systemctl", ["systemctl"])]

def allowedKeys : List String := allowed_commands.map Prod.fst

/-- Message of the `TypeError` raised at line 57 by `cmd = command + args`:
`command` is a `str` and `args` a `list`. -/
def pyConcatTypeError : String := "can only concatenate str (not \"list\") to str"

/-- Embedding of `run_command` (lines 39-76). `ex` is the external-process
oracle, giving (returncode, stdout, stderr) of an invocation; the second
component of the result is the list of process invocations actually
performed. The allow-list check is by exact key. In the allowed branch,
line 57 evaluates `command + args` with `command : str` and `args : list`,
which raises `TypeError` before `subprocess.run` is reached, and
`except Exception` (line 75) turns that into a failure response, so no
process is ever invoked on either branch. -/
def run_command (ex : List String → Int × String × String) (command : String)
    (args : List String) : DaemonResponse × List (List String) :=
  if allowedKeys.contains command then
    ({ success := false, error := some pyConcatTypeError }, [])
  else
    ({ success := false, error := some ("Command not allowed: " ++ command) }, [])

/-! ### Broker client: `APManagerClient._send_request` -/

inductive ClientResult where
  | raisedConnectionError (msg : String)
  | response (r : DaemonResponse)
  | raisedOther (msg : String)
deriving DecidableEq

/-- Embedding of `_send_request` (ap_manager_client.py lines 18-52): socket
path existence is checked before anything else; `transport` abstracts
connect/send/recv/json-decode together with the daemon's reply
(`Except.error` is an exception in that phase, re-raised by the bare
`raise` at line 50). The `Bool` component records whether a connection was
attempted at all. -/
def send_request (socketExists : Bool) (transport : Except String DaemonResponse) :
    ClientResult × Bool :=
  if socketExists = false then (.raisedConnectionError "Daemon not running", false)
  else
    match transport with
    | .ok r => (.response r, true)
    | .error e => (.raisedOther e, true)

/-! ### Privilege probe and elevation strategy: `privilege.py` -/

/-- Benign probe invocations (privilege.py lines 53-58). -/
def test_commands : List (String × List String) :=
  [("iw", ["iw", "dev"]),
   ("ip", ["ip", "link", "show"]),
   ("hostapd", ["hostapd", "--version"]),
   ("dnsmasq", ["dnsmasq", "--version"])]

/-- Embedding of `_check_command_needs_root` (lines 51-80). `run` is the
probing oracle: `some rc` is a completed invocation with exit code `rc`,
`none` an exception (e.g. a timeout), caught by the `except` at line 79. -/
def check_command_needs_root (run : List String → Option Int) (cmd : String) : Bool :=
  match test_commands.lookup cmd with
  | none => true
  | some tc =>
    match run tc with
    | none => true
    | some rc =>
      if rc ≠ 0 then
        match run ("sudo" :: tc) with
        | none => true
        | some src => decide (src = 0)
      else false

structure CmdInfo where
  available : Bool
  needs_root : Bool
deriving DecidableEq

structure PrivilegeProfile where
  is_root : Bool
  sudo_available : Bool
  pkexec_available : Bool
  commands : List CmdInfo
deriving DecidableEq

inductive ElevationOutcome where
  | alreadySufficient
  | noCommandsFailure
  | elevateViaSudo
  | elevateViaHelper
  | elevateViaSystemdRun
  | impossible
deriving DecidableEq

/-- Embedding of `elevate_if_needed` (lines 82-104) inlined with
`_request_elevation` (lines 106-115), as the Bool the caller sees;
`backendRun` gives the Bool result of each dispatched backend.
Line 89's `not any(self.check_commands().values())` is true only when the
dict of probed commands is empty, since every value is a nonempty dict and
hence truthy. The `elif self.pkexec_available` branch at line 110
dispatches `_elevate_with_systemd_run`, not `_elevate_with_pkexec`. -/
def elevate_if_needed (backendRun : ElevationOutcome → Bool) (p : PrivilegeProfile) : Bool :=
  if p.is_root then true
  else if p.commands.isEmpty then false
  else if p.commands.all (fun e => !e.available || !e.needs_root) then true
  else if p.sudo_available then backendRun .elevateViaSudo
  else if p.pkexec_available then backendRun .elevateViaSystemdRun
  else false

/-- The decision `elevate_if_needed` commits to, extracted from the same
branch structure. -/
def elevationDecision (p : PrivilegeProfile) : ElevationOutcome :=
  if p.is_root then .alreadySufficient
  else if p.commands.isEmpty then .noCommandsFailure
  else if p.commands.all (fun e => !e.available || !e.needs_root) then .alreadySufficient
  else if p.sudo_available then .elevateViaSudo
  else if p.pkexec_available then .elevateViaSystemdRun
  else .impossible

/-- Modelled from the claim's words only, for comparison with
`elevationDecision`: choose the first available backend in the priority
order sudo > helper > session-manager. -/
def claimBackendChoice (sudoA helperA sessionA : Bool) : ElevationOutcome :=
  if sudoA then .elevateViaSudo
  else if helperA then .elevateViaHelper
  else if sessionA then .elevateViaSystemdRun
  else .impossible

/-! ### Recursive file mutex: `core/lock.py`

The counter file's bytes are a `List Char`; `natChars n` is the byte
sequence Python's `str(n)` produces for a nonnegative int. -/

def digitChar (d : Nat) : Char := Char.ofNat (48 + d)

/-- Decimal digits of `n`, most significant first, computed with explicit
fuel so that concrete instances reduce by kernel computation;
`natChars_eq` below is the fuel-free unfolding. -/
def natCharsAux : Nat → Nat → List Char
  | 0, _ => []
  | fuel + 1, n =>
    if n < 10 then [digitChar n] else natCharsAux fuel (n / 10) ++ [digitChar (n % 10)]

def natChars (n : Nat) : List Char := natCharsAux (n + 1) n

/-- Bytes of `str(i)` for a Python int. -/
def intChars (i : Int) : List Char :=
  if i < 0 then '-' :: natChars i.natAbs else natChars i.toNat

/-- Python's `str.strip()` whitespace set. -/
def pyWhitespace (c : Char) : Bool :=
  c == ' ' || c == '\t' || c == '\n' || c == '\r' || c == '\x0b' || c == '\x0c'

def pyStrip (cs : List Char) : List Char :=
  ((cs.dropWhile pyWhitespace).reverse.dropWhile pyWhitespace).reverse

def digitVal (c : Char) : Option Nat :=
  if 48 ≤ c.toNat ∧ c.toNat ≤ 57 then some (c.toNat - 48) else none

def parseDigitsAux : List Char → Nat → Option Nat
  | [], acc => some acc
  | c :: cs, acc =>
    match digitVal c with
    | some d => parseDigitsAux cs (acc * 10 + d)
    | none => none

/-- Digit-string part of Python `int(s)`; `none` models `ValueError`. -/
def parseDigits (cs : List Char) : Option Nat :=
  match cs with
  | [] => none
  | _ :: _ => parseDigitsAux cs 0

/-- Python `int(s)` on a decimal string with optional sign, after
stripping whitespace. -/
def pyInt (cs : List Char) : Option Int :=
  let t := pyStrip cs
  if t.head? = some '-' then (parseDigits (t.drop 1)).map (fun n => -(n : Int))
  else if t.head? = some '+' then (parseDigits (t.drop 1)).map (fun n => (n : Int))
  else (parseDigits t).map (fun n => (n : Int))

/-- One read of the counter file (lock.py lines 90-92 and 125-127):
`os.read(fd, 10)` returns at most the first 10 bytes, then
`int(data.decode().strip()) if data else 0`. `none` is the `ValueError`
path, caught by the surrounding `except`. -/
def readCounter (cs : List Char) : Option Int :=
  let data := cs.take 10
  if data.isEmpty then some 0 else pyInt data

/-- `os.write` at offset 0 with no truncation: the new bytes overwrite a
prefix of the old content and any longer tail survives. -/
def writeAt0 (old new : List Char) : List Char := new ++ old.drop new.length

structure LockState where
  content : List Char
  osHeld : Bool
deriving DecidableEq

/-- Body of `mutex_lock` (lines 85-112) on an initialized manager: read
the counter, `flock` the global lock file exactly when the value read is
0, increment, write back at offset 0. Returns the new state and the Bool
result (`false` on the exception path, which changes nothing). -/
def lockStep (st : LockState) : LockState × Bool :=
  match readCounter st.content with
  | none => (st, false)
  | some c =>
    ({ content := writeAt0 st.content (intChars (c + 1)),
       osHeld := if c = 0 then true else st.osHeld }, true)

/-- Body of `mutex_unlock` (lines 120-148): decrement only if the counter
read positive, release the global lock exactly when the decrement reaches
0, write the (possibly unchanged) counter back at offset 0. -/
def unlockStep (st : LockState) : LockState × Bool :=
  match readCounter st.content with
  | none => (st, false)
  | some c =>
    if 0 < c then
      ({ content := writeAt0 st.content (intChars (c - 1)),
         osHeld := if c - 1 = 0 then false else st.osHeld }, true)
    else
      ({ content := writeAt0 st.content (intChars c), osHeld := st.osHeld }, true)

inductive Op where
  | lock
  | unlock
deriving DecidableEq

def applyOp (st : LockState) : Op → LockState × Bool
  | .lock => lockStep st
  | .unlock => unlockStep st

def runOps (st : LockState) : List Op → LockState
  | [] => st
  | op :: ops => runOps (applyOp st op).1 ops

/-- Counter-file state right after `__init_lock__`: content `"0"`, global
lock not held. -/
def initState : LockState := { content := ['0'], osHeld := false }

def locksN (n : Nat) : LockState := runOps initState (List.replicate n Op.lock)

/-- `os.open(..., O_RDWR | O_CREAT | O_TRUNC, ...)` at line 43 discards
whatever content a file at the counter path had. -/
def openTrunc (prior : List Char) : List Char := []

/-- `__init_lock__` lines 43-50: open the counter file with truncation,
then write the single byte `'0'` at offset 0. -/
def initCounterFile (prior : List Char) : List Char := writeAt0 (openTrunc prior) ['0']

structure LockManager where
  lock_fd : Option Nat
  counter_lock_fd : Option Nat
deriving DecidableEq

/-- `mutex_lock` (lines 79-112) including the initialization guard at
lines 81-83. -/
def mutex_lock (m : LockManager) (st : LockState) : LockState × Bool :=
  if m.counter_lock_fd = none ∨ m.lock_fd = none then (st, false) else lockStep st

/-- `mutex_unlock` (lines 114-148) including the initialization guard at
lines 116-118. -/
def mutex_unlock (m : LockManager) (st : LockState) : LockState × Bool :=
  if m.counter_lock_fd = none ∨ m.lock_fd = none then (st, false) else unlockStep st

/-- Lists of decimal digit characters. -/
def IsDigitList (cs : List Char) : Prop := ∀ c ∈ cs, ∃ d, d < 10 ∧ c = digitChar d

/-- Single-process reachability invariant of the lock state: the counter
file holds the canonical decimal form of some natural number, and the OS
lock is held exactly when that number is positive. -/
def LockInv (st : LockState) : Prop :=
  ∃ n : Nat, st.content = natChars n ∧ st.osHeld = decide (0 < n)

/-! ### Theorems about the broker daemon and client -/

/-- C1: a request whose command is not an exact allow-list key is answered
with `{success: false, error: "Command not allowed: <name>"}` and no
external program is executed, whatever `args` holds. -/
theorem run_command_rejects_unknown (ex : List String → Int × String × String)
    (command : String) (args : List String)
    (h : allowedKeys.contains command = false) :
    run_command ex command args =
      ({ success := false, error := some ("Command not allowed: " ++ command) }, []) := by
  unfold run_command
  rw [h]
  simp

theorem run_command_rejects_unknown_witness :
    allowedKeys.contains "rm" = false ∧
      run_command (fun _ => (0, "", "")) "rm" ["-rf", "/"] =
        ({ success := false, error := some ("Command not allowed: " ++ "rm") }, []) :=
  ⟨by decide,
   run_command_rejects_unknown (fun _ => (0, "", "")) "rm" ["-rf", "/"] (by decide)⟩

/-- C2: at the spec's round-trip input the daemon never executes the
allow-list template: line 57's `cmd = command + args` raises `TypeError`,
the reply is a failure carrying no `returncode`, and the list of performed
process invocations is empty, for every external-process oracle. -/
theorem run_command_allowed_never_executes (ex : List String → Int × String × String) :
    run_command ex "ip_link" ["set", "wlan0", "up"] =
      ({ success := false, error := some pyConcatTypeError }, []) := by
  rfl

/-- C8: with the socket path absent, `_send_request` raises
`ConnectionError("Daemon not running")` before attempting any connection
(second component `false`), whatever the transport would have produced;
and that outcome is distinct from every parsed daemon response, in
particular from one whose command ran and exited non-zero. -/
theorem send_request_fails_fast (transport : Except String DaemonResponse)
    (r : DaemonResponse) :
    send_request false transport = (.raisedConnectionError "Daemon not running", false)
      ∧ ClientResult.raisedConnectionError "Daemon not running" ≠ .response r := by
  exact ⟨rfl, fun hcontra => ClientResult.noConfusion hcontra⟩

/-! ### Theorems about the privilege probe and elevation strategy -/

/-- C4 counterexample: when both the unprivileged probe and the sudo probe
exit non-zero (exit code 1), the code classifies `iw` as NOT requiring
root, against the claimed conservative default. -/
theorem needs_root_both_fail_counterexample :
    check_command_needs_root (fun _ => some 1) "iw" = false := by
  decide

/-- C4 amended: for every probed command, unprivileged success classifies
it as not requiring root; unprivileged failure with sudo success as
requiring root; both probes failing classifies it as NOT requiring root
(the sudo probe's exit status is returned as the classification, there is
no conservative default); and an exception in either probe classifies it
as requiring root. -/
theorem needs_root_classification (run : List String → Option Int) (cmd : String)
    (tc : List String) (h : test_commands.lookup cmd = some tc) :
    (run tc = some 0 → check_command_needs_root run cmd = false)
    ∧ (∀ rc : Int, run tc = some rc → rc ≠ 0 → run ("sudo" :: tc) = some 0 →
        check_command_needs_root run cmd = true)
    ∧ (∀ rc src : Int, run tc = some rc → rc ≠ 0 → run ("sudo" :: tc) = some src →
        src ≠ 0 → check_command_needs_root run cmd = false)
    ∧ (run tc = none → check_command_needs_root run cmd = true)
    ∧ (∀ rc : Int, run tc = some rc → rc ≠ 0 → run ("sudo" :: tc) = none →
        check_command_needs_root run cmd = true) := by
  refine ⟨?_, ?_, ?_, ?_, ?_⟩
  · intro h0
    simp [check_command_needs_root, h, h0]
  · intro rc h1 h2 h3
    simp [check_command_needs_root, h, h1, h2, h3]
  · intro rc src h1 h2 h3 h4
    simp [check_command_needs_root, h, h1, h2, h3, h4]
  · intro h1
    simp [check_command_needs_root, h, h1]
  · intro rc h1 h2 h3
    simp [check_command_needs_root, h, h1, h2, h3]

theorem needs_root_classification_witness :
    test_commands.lookup "iw" = some ["iw", "dev"]
      ∧ ((fun _ => some 0 : List String → Option Int) ["iw", "dev"] = some 0 →
          check_command_needs_root (fun _ => some 0) "iw" = false) :=
  ⟨by decide,
   (needs_root_classification (fun _ => some 0) "iw" ["iw", "dev"] (by decide)).1⟩

/-- C5 counterexample: with sudo unavailable, the polkit helper (pkexec)
available and a session-manager runner available, the claimed priority
order picks the helper backend, but the code's decision at a profile with
a present root-requiring command dispatches the systemd-run backend. -/
theorem elevation_helper_skipped_counterexample :
    claimBackendChoice false true true = ElevationOutcome.elevateViaHelper
    ∧ elevationDecision ⟨false, false, true, [⟨true, true⟩]⟩ =
        ElevationOutcome.elevateViaSystemdRun
    ∧ ElevationOutcome.elevateViaHelper ≠ ElevationOutcome.elevateViaSystemdRun := by
  refine ⟨rfl, rfl, ?_⟩
  exact fun hcontra => ElevationOutcome.noConfusion hcontra

/-- C5 amended: the elevation decision is a deterministic function of the
profile: root yields already-sufficient (`True` with no backend run); not
root with every present required command needing no root yields
already-sufficient; otherwise sudo is dispatched if available, else the
systemd-run backend if pkexec is available (the helper backend is never
selected, and systemd-run availability is only checked inside that
backend); with neither, the decision is `impossible` and the caller gets
`False`, distinct from success. -/
theorem elevation_decision_profile (backendRun : ElevationOutcome → Bool)
    (p : PrivilegeProfile) :
    (p.is_root = true → elevate_if_needed backendRun p = true)
    ∧ (p.is_root = false → p.commands.isEmpty = false →
        p.commands.all (fun e => !e.available || !e.needs_root) = true →
        elevate_if_needed backendRun p = true)
    ∧ (p.is_root = false → p.commands.isEmpty = false →
        p.commands.all (fun e => !e.available || !e.needs_root) = false →
        (p.sudo_available = true →
            elevate_if_needed backendRun p = backendRun .elevateViaSudo
            ∧ elevationDecision p = .elevateViaSudo)
        ∧ (p.sudo_available = false → p.pkexec_available = true →
            elevate_if_needed backendRun p = backendRun .elevateViaSystemdRun
            ∧ elevationDecision p = .elevateViaSystemdRun)
        ∧ (p.sudo_available = false → p.pkexec_available = false →
            elevationDecision p = .impossible
            ∧ elevate_if_needed backendRun p = false))
    ∧ elevationDecision p ≠ .elevateViaHelper := by
  refine ⟨?_, ?_, ?_, ?_⟩
  · intro h
    simp [elevate_if_needed, h]
  · intro h1 h2 h3
    simp [elevate_if_needed, h1, h2, h3]
  · intro h1 h2 h3
    refine ⟨?_, ?_, ?_⟩
    · intro h4
      constructor <;> simp [elevate_if_needed, elevationDecision, h1, h2, h3, h4]
    · intro h4 h5
      constructor <;> simp [elevate_if_needed, elevationDecision, h1, h2, h3, h4, h5]
    · intro h4 h5
      constructor <;> simp [elevate_if_needed, elevationDecision, h1, h2, h3, h4, h5]
  · unfold elevationDecision
    split
    · simp
    · split
      · simp
      · split
        · simp
        · split
          · simp
          · split <;> simp

/-! ### Theorems about the lock manager: initialization and guards -/

/-- C9: constructing the lock manager truncates the counter file and
writes the single byte `'0'`: whatever content a file at the counter path
had before, the file now holds exactly `"0"` and reads as counter 0. -/
theorem init_counter_resets (prior : List Char) :
    initCounterFile prior = ['0'] ∧ readCounter (initCounterFile prior) = some 0 :=
  ⟨rfl, rfl⟩

/-- C10: with either file descriptor still `None`, both `mutex_lock` and
`mutex_unlock` return `False` and leave the counter file and the OS-level
lock unchanged. -/
theorem mutex_uninitialized_noop (m : LockManager) (st : LockState)
    (h : m.counter_lock_fd = none ∨ m.lock_fd = none) :
    mutex_lock m st = (st, false) ∧ mutex_unlock m st = (st, false) := by
  unfold mutex_lock mutex_unlock
  rw [if_pos h, if_pos h]
  exact ⟨rfl, rfl⟩

theorem mutex_uninitialized_noop_witness :
    ((⟨some 3, none⟩ : LockManager).counter_lock_fd = none
        ∨ (⟨some 3, none⟩ : LockManager).lock_fd = none)
      ∧ mutex_lock ⟨some 3, none⟩ initState = (initState, false)
      ∧ mutex_unlock ⟨some 3, none⟩ initState = (initState, false) :=
  ⟨Or.inl rfl,
   (mutex_uninitialized_noop ⟨some 3, none⟩ initState (Or.inl rfl)).1,
   (mutex_uninitialized_noop ⟨some 3, none⟩ initState (Or.inl rfl)).2⟩

/-! ### Decimal digit strings: basic lemmas -/

theorem digitVal_digitChar (d : Nat) (hd : d < 10) : digitVal (digitChar d) = some d := by
  interval_cases d <;> decide

theorem digitChar_eq_zero_iff (d : Nat) (hd : d < 10) : digitChar d = '0' ↔ d = 0 := by
  interval_cases d <;> decide

theorem digitChar_not_ws (d : Nat) (hd : d < 10) : pyWhitespace (digitChar d) = false := by
  interval_cases d <;> decide

theorem digitChar_ne_minus (d : Nat) (hd : d < 10) : digitChar d ≠ '-' := by
  interval_cases d <;> decide

theorem digitChar_ne_plus (d : Nat) (hd : d < 10) : digitChar d ≠ '+' := by
  interval_cases d <;> decide

theorem natCharsAux_irrel (f : Nat) :
    ∀ g n, n < f → n < g → natCharsAux f n = natCharsAux g n := by
  induction f with
  | zero => intro g n h; omega
  | succ f ih =>
    intro g n hf hg
    cases g with
    | zero => omega
    | succ g =>
      by_cases hn : n < 10
      · simp [natCharsAux, hn]
      · have hlt : n / 10 < n := Nat.div_lt_self (by omega) (by omega)
        simp only [natCharsAux, if_neg hn]
        rw [ih g (n / 10) (by omega) (by omega)]

/-- Fuel-free unfolding of `natChars`. -/
theorem natChars_eq (n : Nat) :
    natChars n =
      if n < 10 then [digitChar n] else natChars (n / 10) ++ [digitChar (n % 10)] := by
  by_cases hn : n < 10
  · simp [natChars, natCharsAux, hn]
  · have hlt : n / 10 < n := Nat.div_lt_self (by omega) (by omega)
    have hstep : natChars n = natCharsAux n (n / 10) ++ [digitChar (n % 10)] := by
      simp [natChars, natCharsAux, hn]
    rw [hstep, if_neg hn]
    congr 1
    rw [natCharsAux_irrel n (n / 10 + 1) (n / 10) (by omega) (by omega)]
    rfl

theorem natChars_ne_nil (n : Nat) : natChars n ≠ [] := by
  rw [natChars_eq]
  split <;> simp

theorem natChars_digits (n : Nat) : IsDigitList (natChars n) := by
  induction n using Nat.strong_induction_on with
  | _ n ih =>
    rw [natChars_eq]
    by_cases hn : n < 10
    · rw [if_pos hn]
      intro c hc
      simp at hc
      exact ⟨n, hn, hc⟩
    · rw [if_neg hn]
      intro c hc
      rcases List.mem_append.mp hc with h1 | h2
      · exact ih (n / 10) (Nat.div_lt_self (by omega) (by omega)) c h1
      · simp at h2
        exact ⟨n % 10, Nat.mod_lt _ (by omega), h2⟩

theorem natChars_head (n : Nat) :
    ∃ d, d < 10 ∧ (natChars n).head? = some (digitChar d) ∧ (d = 0 ↔ n = 0) := by
  induction n using Nat.strong_induction_on with
  | _ n ih =>
    by_cases hn : n < 10
    · refine ⟨n, hn, ?_, Iff.rfl⟩
      rw [natChars_eq, if_pos hn]
      rfl
    · obtain ⟨d, hd, hh, hiff⟩ := ih (n / 10) (Nat.div_lt_self (by omega) (by omega))
      have hq1 : 1 ≤ n / 10 := (Nat.one_le_div_iff (by omega)).mpr (by omega)
      refine ⟨d, hd, ?_, ?_⟩
      · rw [natChars_eq, if_neg hn]
        cases hcs : natChars (n / 10) with
        | nil => exact absurd hcs (natChars_ne_nil _)
        | cons x xs =>
          rw [hcs] at hh
          simp at hh
          simp [hh]
      · constructor
        · intro hd0
          have := hiff.mp hd0
          omega
        · intro h0
          omega

theorem parseDigitsAux_append (xs ys : List Char) (acc : Nat) :
    parseDigitsAux (xs ++ ys) acc =
      (parseDigitsAux xs acc).bind (fun v => parseDigitsAux ys v) := by
  induction xs generalizing acc with
  | nil => rfl
  | cons c cs ih =>
    cases hdv : digitVal c with
    | none => simp [parseDigitsAux, hdv]
    | some d => simp [parseDigitsAux, hdv, ih]

theorem parseDigitsAux_some (cs : List Char) (h : IsDigitList cs) :
    ∀ acc, ∃ v, parseDigitsAux cs acc = some v ∧ acc * 10 ^ cs.length ≤ v := by
  induction cs with
  | nil => exact fun acc => ⟨acc, rfl, by simp⟩
  | cons c cs ih =>
    intro acc
    obtain ⟨d, hd, rfl⟩ := h c (List.mem_cons_self c cs)
    have hrest : IsDigitList cs := fun x hx => h x (List.mem_cons_of_mem _ hx)
    obtain ⟨v, hv, hle⟩ := ih hrest (acc * 10 + d)
    refine ⟨v, ?_, ?_⟩
    · simp [parseDigitsAux, digitVal_digitChar d hd, hv]
    · have h1 : acc * 10 ^ (digitChar d :: cs).length = (acc * 10) * 10 ^ cs.length := by
        rw [List.length_cons, pow_succ]
        ring
      have h2 : (acc * 10) * 10 ^ cs.length ≤ (acc * 10 + d) * 10 ^ cs.length :=
        Nat.mul_le_mul_right _ (by omega)
      rw [h1]
      exact le_trans h2 hle

theorem parseDigitsAux_natChars (n : Nat) :
    ∀ acc, parseDigitsAux (natChars n) acc = some (acc * 10 ^ (natChars n).length + n) := by
  induction n using Nat.strong_induction_on with
  | _ n ih =>
    intro acc
    by_cases hn : n < 10
    · rw [natChars_eq, if_pos hn]
      simp [parseDigitsAux, digitVal_digitChar n hn]
    · rw [natChars_eq, if_neg hn]
      rw [parseDigitsAux_append]
      rw [ih (n / 10) (Nat.div_lt_self (by omega) (by omega)) acc]
      simp [parseDigitsAux, digitVal_digitChar (n % 10) (Nat.mod_lt _ (by omega))]
      rw [pow_succ, ← mul_assoc]
      have hdm := Nat.div_add_mod n 10
      set A := acc * 10 ^ (natChars (n / 10)).length with hA
      omega

theorem parseDigits_natChars (n : Nat) : parseDigits (natChars n) = some n := by
  have h := parseDigitsAux_natChars n 0
  cases hcs : natChars n with
  | nil => exact absurd hcs (natChars_ne_nil n)
  | cons x xs =>
    rw [hcs] at h
    simp at h
    simpa [parseDigits] using h

theorem dropWhile_eq_self (p : Char → Bool) (cs : List Char)
    (h : ∀ c ∈ cs, p c = false) : cs.dropWhile p = cs := by
  cases cs with
  | nil => rfl
  | cons c cs => simp [List.dropWhile_cons, h c (List.mem_cons_self c cs)]

theorem pyStrip_eq_self (cs : List Char) (h : IsDigitList cs) : pyStrip cs = cs := by
  have hws : ∀ c ∈ cs, pyWhitespace c = false := by
    intro c hc
    obtain ⟨d, hd, rfl⟩ := h c hc
    exact digitChar_not_ws d hd
  unfold pyStrip
  rw [dropWhile_eq_self _ _ hws]
  rw [dropWhile_eq_self _ _ (fun c hc => hws c (List.mem_reverse.mp hc))]
  rw [List.reverse_reverse]

theorem pyInt_digits (cs : List Char) (h : IsDigitList cs) (hne : cs ≠ []) :
    pyInt cs = (parseDigits cs).map (fun v => (v : Int)) := by
  simp only [pyInt, pyStrip_eq_self cs h]
  cases cs with
  | nil => exact absurd rfl hne
  | cons x xs =>
    obtain ⟨d, hd, rfl⟩ := h x (List.mem_cons_self x xs)
    rw [if_neg (by simp [digitChar_ne_minus d hd]), if_neg (by simp [digitChar_ne_plus d hd])]

theorem natChars_length_mono : ∀ n m, m ≤ n → (natChars m).length ≤ (natChars n).length := by
  intro n
  induction n using Nat.strong_induction_on with
  | _ n ih =>
    intro m hmn
    by_cases hm : m < 10
    · have h1 : (natChars m).length = 1 := by rw [natChars_eq, if_pos hm]; rfl
      have h2 : 1 ≤ (natChars n).length := List.length_pos.mpr (natChars_ne_nil n)
      omega
    · have hn : ¬ n < 10 := by omega
      rw [natChars_eq m, if_neg hm, natChars_eq n, if_neg hn]
      simp only [List.length_append, List.length_cons, List.length_nil]
      have := ih (n / 10) (Nat.div_lt_self (by omega) (by omega)) (m / 10)
        (Nat.div_le_div_right hmn)
      omega

theorem natChars_length_le : ∀ n k, 1 ≤ k → n < 10 ^ k → (natChars n).length ≤ k := by
  intro n
  induction n using Nat.strong_induction_on with
  | _ n ih =>
    intro k hk hn
    by_cases h10 : n < 10
    · rw [natChars_eq, if_pos h10]
      simpa using hk
    · have hk2 : 2 ≤ k := by
        rcases Nat.lt_or_ge k 2 with hc | hc
        · interval_cases k
          · simp at hn
            omega
        · exact hc
      rw [natChars_eq, if_neg h10]
      simp only [List.length_append, List.length_cons, List.length_nil]
      have hdiv : n / 10 < 10 ^ (k - 1) := by
        rw [Nat.div_lt_iff_lt_mul (by omega)]
        calc n < 10 ^ k := hn
          _ = 10 ^ (k - 1) * 10 := by
              rw [← pow_succ]
              congr 1
              omega
      have := ih (n / 10) (Nat.div_lt_self (by omega) (by omega)) (k - 1) (by omega) hdiv
      omega

theorem natChars_length_ge : ∀ n k, 10 ^ k ≤ n → k + 1 ≤ (natChars n).length := by
  intro n
  induction n using Nat.strong_induction_on with
  | _ n ih =>
    intro k hk
    cases k with
    | zero =>
      have : 1 ≤ (natChars n).length := List.length_pos.mpr (natChars_ne_nil n)
      omega
    | succ k =>
      have hbase : (10 : Nat) ≤ 10 ^ (k + 1) := Nat.le_self_pow (by omega) 10
      have h10 : 10 ≤ n := by omega
      rw [natChars_eq, if_neg (by omega)]
      simp only [List.length_append, List.length_cons, List.length_nil]
      have hdiv : 10 ^ k ≤ n / 10 := by
        rw [Nat.le_div_iff_mul_le (by omega)]
        calc 10 ^ k * 10 = 10 ^ (k + 1) := (pow_succ 10 k).symm
          _ ≤ n := hk
      have := ih (n / 10) (Nat.div_lt_self (by omega) (by omega)) k hdiv
      omega

/-- A nonempty all-digit string with no leading `'0'` (or the single
string `"0"`) is the canonical decimal form of the number it spells. -/
theorem canonical_digits (cs : List Char) (hd : IsDigitList cs) (hne : cs ≠ [])
    (hh : cs = ['0'] ∨ cs.head? ≠ some '0') :
    ∃ n : Nat, parseDigits cs = some n ∧ natChars n = cs := by
  induction cs using List.reverseRecOn with
  | nil => exact absurd rfl hne
  | append_singleton ds c ihds =>
    obtain ⟨e, he, rfl⟩ := hd c (by simp)
    by_cases hds : ds = []
    · subst hds
      refine ⟨e, ?_, ?_⟩
      · simp [parseDigits, parseDigitsAux, digitVal_digitChar e he]
      · rw [natChars_eq, if_pos he]
        rfl
    · have hd_ds : IsDigitList ds := fun x hx => hd x (by simp [hx])
      have hhead_ds : ds.head? ≠ some '0' := by
        cases ds with
        | nil => exact absurd rfl hds
        | cons x xs =>
          rcases hh with h1 | h2
          · exfalso
            have := congrArg List.length h1
            simp at this
          · intro hx
            apply h2
            simpa using hx
      obtain ⟨v, hpv, hnv⟩ := ihds hd_ds hds (Or.inr hhead_ds)
      have hv1 : v ≠ 0 := by
        intro h0
        subst h0
        apply hhead_ds
        rw [← hnv]
        decide
      refine ⟨v * 10 + e, ?_, ?_⟩
      · cases ds with
        | nil => exact absurd rfl hds
        | cons x xs =>
          have hx : parseDigitsAux (x :: xs) 0 = some v := hpv
          have happ := parseDigitsAux_append (x :: xs) [digitChar e] 0
          rw [hx] at happ
          simp only [Option.some_bind] at happ
          show parseDigitsAux (x :: xs ++ [digitChar e]) 0 = some (v * 10 + e)
          rw [happ]
          simp [parseDigitsAux, digitVal_digitChar e he]
      · have h10 : ¬ (v * 10 + e < 10) := by omega
        rw [natChars_eq, if_neg h10]
        have hdiv : (v * 10 + e) / 10 = v := by
          rw [mul_comm, Nat.mul_add_div (by omega)]
          simp [Nat.div_eq_of_lt he]
        have hmod : (v * 10 + e) % 10 = e := by
          rw [mul_comm, Nat.mul_add_mod]
          exact Nat.mod_eq_of_lt he
        rw [hdiv, hmod, hnv]

/-! ### Reading the counter file -/

theorem readCounter_natChars_small (n : Nat) (h : n < 10 ^ 10) :
    readCounter (natChars n) = some (n : Int) := by
  have hlen : (natChars n).length ≤ 10 := natChars_length_le n 10 (by omega) h
  have htake : (natChars n).take 10 = natChars n := List.take_of_length_le hlen
  have hne : natChars n ≠ [] := natChars_ne_nil n
  simp only [readCounter, htake]
  rw [if_neg (by simp [List.isEmpty_iff, hne])]
  rw [pyInt_digits _ (natChars_digits n) hne, parseDigits_natChars n]
  rfl

theorem readCounter_natChars_large (n : Nat) (h : 10 ^ 10 ≤ n) :
    ∃ r : Nat, readCounter (natChars n) = some (r : Int) ∧ 10 ^ 9 ≤ r := by
  have hlen : 11 ≤ (natChars n).length := natChars_length_ge n 10 h
  obtain ⟨d, hd, hhead, hiff⟩ := natChars_head n
  have hn0 : n ≠ 0 := by
    have : (0 : Nat) < 10 ^ 10 := by norm_num
    omega
  have hd0 : d ≠ 0 := fun h0 => hn0 (hiff.mp h0)
  cases hcs : natChars n with
  | nil => exact absurd hcs (natChars_ne_nil n)
  | cons x xs =>
    rw [hcs] at hhead hlen
    simp at hhead
    subst hhead
    simp only [List.length_cons] at hlen
    have hxs9 : 9 ≤ xs.length := by omega
    have ht3 : List.take 10 (digitChar d :: xs) = digitChar d :: List.take 9 xs := rfl
    have hd_all : IsDigitList (digitChar d :: xs) := by
      rw [← hcs]
      exact natChars_digits n
    have hd_rest : IsDigitList (xs.take 9) :=
      fun c hc => hd_all c (List.mem_cons_of_mem _ ((List.take_sublist 9 xs).subset hc))
    obtain ⟨v, hv, hle⟩ := parseDigitsAux_some (xs.take 9) hd_rest d
    have hlen_rest : (xs.take 9).length = 9 := by
      rw [List.length_take]
      omega
    have hd_t : IsDigitList (digitChar d :: List.take 9 xs) := by
      intro c hc
      rcases List.mem_cons.mp hc with h1 | h2
      · exact ⟨d, hd, h1⟩
      · exact hd_rest c h2
    refine ⟨v, ?_, ?_⟩
    · simp only [readCounter, ht3]
      rw [if_neg (by simp)]
      rw [pyInt_digits _ hd_t (by simp)]
      have hp : parseDigits (digitChar d :: xs.take 9) = some v := by
        show parseDigitsAux (digitChar d :: xs.take 9) 0 = some v
        simp only [parseDigitsAux, digitVal_digitChar d hd]
        simpa using hv
      rw [hp]
      rfl
    · calc (10 : Nat) ^ 9 = 1 * 10 ^ 9 := by ring
        _ ≤ d * 10 ^ 9 := Nat.mul_le_mul_right _ (by omega)
        _ = d * 10 ^ (xs.take 9).length := by rw [hlen_rest]
        _ ≤ v := hle

/-- Combined read specification on canonical contents. -/
theorem readCounter_spec (n : Nat) :
    ∃ r : Nat, readCounter (natChars n) = some (r : Int)
      ∧ (n < 10 ^ 10 → r = n) ∧ (r = 0 ↔ n = 0) ∧ (r = 1 → n = 1) := by
  by_cases h : n < 10 ^ 10
  · exact ⟨n, readCounter_natChars_small n h, fun _ => rfl, Iff.rfl, fun h1 => h1⟩
  · obtain ⟨r, hr, hge⟩ := readCounter_natChars_large n (by omega)
    have h9 : (2 : Nat) ≤ 10 ^ 9 := by norm_num
    have h10 : (0 : Nat) < 10 ^ 10 := by norm_num
    refine ⟨r, hr, fun hc => absurd hc h, ?_, ?_⟩
    · constructor
      · intro h0
        omega
      · intro hn0
        omega
    · intro h1
      omega

/-! ### The reachability invariant of the lock state -/

theorem write_canonical (n k : Nat) (hk : k ≠ 0) :
    ∃ m : Nat, m ≠ 0 ∧ writeAt0 (natChars n) (natChars k) = natChars m := by
  have hd_app : IsDigitList (writeAt0 (natChars n) (natChars k)) := by
    intro c hc
    rcases List.mem_append.mp hc with h1 | h2
    · exact natChars_digits k c h1
    · exact natChars_digits n c ((List.drop_sublist _ _).subset h2)
  have hne_app : writeAt0 (natChars n) (natChars k) ≠ [] := by
    unfold writeAt0
    simp [List.append_eq_nil, natChars_ne_nil k]
  obtain ⟨d, hd, hhead, hiff⟩ := natChars_head k
  have hd0 : d ≠ 0 := fun h0 => hk (hiff.mp h0)
  have hhead_app : (writeAt0 (natChars n) (natChars k)).head? ≠ some '0' := by
    unfold writeAt0
    cases hcs : natChars k with
    | nil => exact absurd hcs (natChars_ne_nil k)
    | cons x xs =>
      rw [hcs] at hhead
      simp at hhead
      subst hhead
      simp only [List.cons_append, List.head?_cons]
      intro hcon
      simp at hcon
      exact hd0 ((digitChar_eq_zero_iff d hd).mp hcon)
  obtain ⟨m, hpm, hnm⟩ := canonical_digits _ hd_app hne_app (Or.inr hhead_app)
  refine ⟨m, ?_, hnm.symm⟩
  intro h0
  subst h0
  apply hhead_app
  rw [← hnm]
  decide

theorem lockStep_inv (st : LockState) (h : LockInv st) :
    LockInv (lockStep st).1 ∧ (lockStep st).2 = true := by
  obtain ⟨n, hc, hh⟩ := h
  obtain ⟨r, hr, hsmall, hr0, hr1⟩ := readCounter_spec n
  have hread : readCounter st.content = some ((r : Nat) : Int) := by rw [hc]; exact hr
  have hint : intChars ((r : Int) + 1) = natChars (r + 1) := by
    unfold intChars
    rw [if_neg (by omega)]
    rw [show ((r : Int) + 1).toNat = r + 1 by omega]
  obtain ⟨m, hm0, hwm⟩ := write_canonical n (r + 1) (by omega)
  refine ⟨⟨m, ?_, ?_⟩, ?_⟩
  · show (lockStep st).1.content = natChars m
    simp only [lockStep, hread]
    rw [hint, hc, hwm]
  · show (lockStep st).1.osHeld = decide (0 < m)
    simp only [lockStep, hread]
    by_cases hrz : ((r : Nat) : Int) = 0
    · rw [if_pos hrz]
      simp [Nat.pos_of_ne_zero hm0]
    · rw [if_neg hrz]
      rw [hh]
      have hn0 : n ≠ 0 := by
        intro h0
        exact hrz (by simp [hr0.mpr h0])
      simp [Nat.pos_of_ne_zero hn0, Nat.pos_of_ne_zero hm0]
  · simp only [lockStep, hread]

theorem unlockStep_inv (st : LockState) (h : LockInv st) :
    LockInv (unlockStep st).1 ∧ (unlockStep st).2 = true := by
  obtain ⟨n, hc, hh⟩ := h
  obtain ⟨r, hr, hsmall, hr0, hr1⟩ := readCounter_spec n
  have hread : readCounter st.content = some ((r : Nat) : Int) := by rw [hc]; exact hr
  by_cases hrz : r = 0
  · subst hrz
    have hn0 : n = 0 := hr0.mp rfl
    subst hn0
    refine ⟨⟨0, ?_, ?_⟩, ?_⟩
    · simp only [unlockStep, hread]
      rw [if_neg (by omega)]
      show writeAt0 st.content (intChars ((0 : Nat) : Int)) = natChars 0
      rw [hc]
      decide
    · simp only [unlockStep, hread]
      rw [if_neg (by omega)]
      show st.osHeld = decide (0 < 0)
      rw [hh]
    · simp only [unlockStep, hread]
      rw [if_neg (by omega)]
  · by_cases hr1' : r = 1
    · subst hr1'
      have hn1 : n = 1 := hr1 rfl
      subst hn1
      refine ⟨⟨0, ?_, ?_⟩, ?_⟩
      · simp only [unlockStep, hread]
        rw [if_pos (by omega)]
        show writeAt0 st.content (intChars (((1 : Nat) : Int) - 1)) = natChars 0
        rw [hc]
        decide
      · simp only [unlockStep, hread]
        rw [if_pos (by omega)]
        show (if ((1 : Nat) : Int) - 1 = 0 then false else st.osHeld) = decide (0 < 0)
        rw [if_pos (by omega)]
        decide
      · simp only [unlockStep, hread]
        rw [if_pos (by omega)]
    · have hr2 : 2 ≤ r := by omega
      have hint : intChars ((r : Int) - 1) = natChars (r - 1) := by
        unfold intChars
        rw [if_neg (by omega)]
        rw [show ((r : Int) - 1).toNat = r - 1 by omega]
      obtain ⟨m, hm0, hwm⟩ := write_canonical n (r - 1) (by omega)
      refine ⟨⟨m, ?_, ?_⟩, ?_⟩
      · simp only [unlockStep, hread]
        rw [if_pos (by omega)]
        show writeAt0 st.content (intChars ((r : Int) - 1)) = natChars m
        rw [hint, hc, hwm]
      · simp only [unlockStep, hread]
        rw [if_pos (by omega)]
        show (if (r : Int) - 1 = 0 then false else st.osHeld) = decide (0 < m)
        rw [if_neg (by omega)]
        rw [hh]
        have hn0 : n ≠ 0 := fun h0 => hrz (hr0.mpr h0)
        simp [Nat.pos_of_ne_zero hn0, Nat.pos_of_ne_zero hm0]
      · simp only [unlockStep, hread]
        rw [if_pos (by omega)]

theorem runOps_inv (ops : List Op) : ∀ st, LockInv st → LockInv (runOps st ops) := by
  induction ops with
  | nil => exact fun st h => h
  | cons op ops ih =>
    intro st h
    show LockInv (runOps (applyOp st op).1 ops)
    apply ih
    cases op with
    | lock => exact (lockStep_inv st h).1
    | unlock => exact (unlockStep_inv st h).1

theorem initState_inv : LockInv initState := ⟨0, by decide, by decide⟩

/-! ### Theorems about the recursive mutex -/

/-- C3: after any sequence of `mutex_lock`/`mutex_unlock` calls from the
initialized state, the OS-level lock is held exactly when the persisted
counter reads positive; a further `mutex_lock` touches the OS lock only
when the counter it reads is 0 (a nested call leaves it unchanged), and a
`mutex_unlock` releases it exactly on the decrement from 1 to 0. -/
theorem mutex_os_lock_iff_counter_pos (ops : List Op) :
    ((runOps initState ops).osHeld = true ↔
        ∃ r : Int, readCounter (runOps initState ops).content = some r ∧ 0 < r)
    ∧ (∀ r : Int, readCounter (runOps initState ops).content = some r → 0 < r →
        (lockStep (runOps initState ops)).1.osHeld = (runOps initState ops).osHeld)
    ∧ (readCounter (runOps initState ops).content = some 0 →
        (lockStep (runOps initState ops)).1.osHeld = true)
    ∧ (readCounter (runOps initState ops).content = some 1 →
        (unlockStep (runOps initState ops)).1.osHeld = false)
    ∧ (∀ r : Int, readCounter (runOps initState ops).content = some r → r ≠ 1 →
        (unlockStep (runOps initState ops)).1.osHeld = (runOps initState ops).osHeld) := by
  obtain ⟨n, hc, hh⟩ := runOps_inv ops initState initState_inv
  obtain ⟨r, hr, hsmall, hr0, hr1⟩ := readCounter_spec n
  have hread : readCounter (runOps initState ops).content = some ((r : Nat) : Int) := by
    rw [hc]
    exact hr
  refine ⟨?_, ?_, ?_, ?_, ?_⟩
  · constructor
    · intro hheld
      refine ⟨((r : Nat) : Int), hread, ?_⟩
      rw [hh] at hheld
      have hn : 0 < n := by simpa using hheld
      have hrne : r ≠ 0 := by
        intro h0
        have := hr0.mp h0
        omega
      omega
    · rintro ⟨r', hr', hpos⟩
      have heq : ((r : Nat) : Int) = r' := Option.some_inj.mp (hread.symm.trans hr')
      have hrpos : 0 < r := by omega
      have hnn : n ≠ 0 := by
        intro h0
        have := hr0.mpr h0
        omega
      rw [hh]
      simp [Nat.pos_of_ne_zero hnn]
  · intro r' hr' hpos
    have heq : ((r : Nat) : Int) = r' := Option.some_inj.mp (hread.symm.trans hr')
    simp only [lockStep, hread]
    rw [if_neg (by omega)]
  · intro h0
    have heq : ((r : Nat) : Int) = 0 := Option.some_inj.mp (hread.symm.trans h0)
    simp only [lockStep, hread]
    rw [if_pos heq]
  · intro h1
    have heq : ((r : Nat) : Int) = 1 := Option.some_inj.mp (hread.symm.trans h1)
    simp only [unlockStep, hread]
    rw [if_pos (by omega)]
    show (if ((r : Nat) : Int) - 1 = 0 then false else (runOps initState ops).osHeld) = false
    rw [if_pos (by omega)]
  · intro r' hr' hne
    have heq : ((r : Nat) : Int) = r' := Option.some_inj.mp (hread.symm.trans hr')
    simp only [unlockStep, hread]
    by_cases hpos : (0 : Int) < ((r : Nat) : Int)
    · rw [if_pos hpos]
      show (if ((r : Nat) : Int) - 1 = 0 then false else (runOps initState ops).osHeld) =
        (runOps initState ops).osHeld
      rw [if_neg (by omega)]
    · rw [if_neg hpos]

/-- C6: after any sequence of lock/unlock calls, the counter the file
stores reads as a nonnegative integer (the balance never goes negative),
and a `mutex_unlock` issued when the counter reads 0 leaves the whole
state unchanged and still returns `True` (clamped, no crash). -/
theorem mutex_unlock_clamps_at_zero (ops : List Op) :
    (∀ r : Int, readCounter (runOps initState ops).content = some r → 0 ≤ r)
    ∧ (∃ r : Int, readCounter (runOps initState ops).content = some r)
    ∧ (readCounter (runOps initState ops).content = some 0 →
        unlockStep (runOps initState ops) = (runOps initState ops, true)) := by
  obtain ⟨n, hc, hh⟩ := runOps_inv ops initState initState_inv
  obtain ⟨r, hr, hsmall, hr0, hr1⟩ := readCounter_spec n
  have hread : readCounter (runOps initState ops).content = some ((r : Nat) : Int) := by
    rw [hc]
    exact hr
  refine ⟨?_, ⟨_, hread⟩, ?_⟩
  · intro r' hr'
    have heq : ((r : Nat) : Int) = r' := Option.some_inj.mp (hread.symm.trans hr')
    omega
  · intro h0
    have heq : ((r : Nat) : Int) = 0 := Option.some_inj.mp (hread.symm.trans h0)
    have hn0 : n = 0 := hr0.mp (by exact_mod_cast heq)
    subst hn0
    have hcomp : ∀ s : LockState, s.content = natChars 0 → s.osHeld = false →
        s = ⟨natChars 0, false⟩ := by
      intro s h1 h2
      cases s
      simp_all
    have hst : runOps initState ops = ⟨natChars 0, false⟩ :=
      hcomp _ hc (by rw [hh]; decide)
    rw [hst]
    decide

theorem runOps_append (st : LockState) (l1 l2 : List Op) :
    runOps st (l1 ++ l2) = runOps (runOps st l1) l2 := by
  induction l1 generalizing st with
  | nil => rfl
  | cons op ops ih =>
    show runOps (applyOp st op).1 (ops ++ l2) = _
    rw [ih]
    rfl

theorem locksN_succ (n : Nat) : locksN (n + 1) = (lockStep (locksN n)).1 := by
  unfold locksN
  rw [List.replicate_succ', runOps_append]
  rfl

theorem locksN_closed : ∀ n, n ≤ 10 ^ 10 → locksN n = ⟨natChars n, decide (0 < n)⟩ := by
  intro n
  induction n with
  | zero => intro _; decide
  | succ n ih =>
    intro hle
    have hsmall : n < 10 ^ 10 := by omega
    rw [locksN_succ, ih (by omega)]
    have hint : intChars ((n : Int) + 1) = natChars (n + 1) := by
      unfold intChars
      rw [if_neg (by omega)]
      rw [show ((n : Int) + 1).toNat = n + 1 by omega]
    have hw : writeAt0 (natChars n) (natChars (n + 1)) = natChars (n + 1) := by
      unfold writeAt0
      rw [List.drop_eq_nil_of_le (natChars_length_mono (n + 1) n (by omega))]
      simp
    have hcomp : ∀ a b : LockState, a.content = b.content → a.osHeld = b.osHeld → a = b := by
      intro a b h1 h2
      cases a
      cases b
      simp_all
    simp only [lockStep, readCounter_natChars_small n hsmall]
    apply hcomp
    · show writeAt0 (natChars n) (intChars ((n : Int) + 1)) = natChars (n + 1)
      rw [hint, hw]
    · show (if ((n : Nat) : Int) = 0 then true else decide (0 < n)) = decide (0 < n + 1)
      by_cases hn0 : n = 0
      · subst hn0
        decide
      · rw [if_neg (by omega)]
        simp [Nat.pos_of_ne_zero hn0]

/-- C7 (amended): after N successful `mutex_lock` calls with no
intervening unlock, for 1 ≤ N ≤ 10^10, the counter file holds exactly
the decimal digit string of N. -/
theorem counter_content_after_locks (n : Nat) (h1 : 1 ≤ n) (h2 : n ≤ 10 ^ 10) :
    (locksN n).content = natChars n := by
  rw [locksN_closed n h2]

theorem counter_content_after_locks_witness :
    1 ≤ 3 ∧ 3 ≤ 10 ^ 10 ∧ (locksN 3).content = natChars 3 :=
  ⟨by decide, by decide, counter_content_after_locks 3 (by decide) (by decide)⟩

/-- C7 counterexample: at N = 10^10 + 1 the 10-byte read cap truncates
the 11-digit counter, so the value written back is not N and the file
content differs from the decimal string of N. -/
theorem counter_content_overflow_counterexample :
    (locksN (10 ^ 10 + 1)).content ≠ natChars (10 ^ 10 + 1) := by
  rw [locksN_succ, locksN_closed (10 ^ 10) (le_refl _)]
  decide

end APManager
